import Mathlib

/-!
Verification of the katfish chess engine core (`engine.py`, `katfish_nnue.py`)
against its design specification.

The board/rules collaborator (python-chess) is external to the core, so it is
embedded as an abstract interface `BoardAPI`: the engine only consumes legal-move
enumeration, push/pop, predicates, the position key, and move metadata.  The
mutable shared board of the source is threaded explicitly: every embedded
function returns the board it leaves behind, and the python-chess contract
`board.pop()` undoes `board.push(mv)` appears as the explicit hypothesis
`pop (push b m) = b` where a theorem needs it.

Python floats appear in the source only as the sentinels `±math.inf` seeding
alpha/beta and `best_val`; every other score is an `int`.  Scores are therefore
embedded as integers extended with two infinities (`XInt`), whose comparison,
negation, `max` and `min` agree with Python semantics on these values.

The recursive searches are embedded with an explicit fuel parameter (the check
extension can keep `depth` from decreasing, so the source recursion has no
structural measure); all theorems hold for every fuel value.
-/

namespace Katfish

/-- Integers extended with the two IEEE infinities, covering exactly the score
values the engine manipulates (`-math.inf`/`math.inf` sentinels plus ints). -/
inductive XInt where
  | ninf
  | fin (n : Int)
  | inf
deriving DecidableEq

namespace XInt

/-- Python `a <= b` on these values. -/
def ble : XInt → XInt → Bool
  | ninf, _ => true
  | _, inf => true
  | fin a, fin b => a ≤ b
  | inf, _ => false
  | _, ninf => false

/-- Python `a < b` on these values. -/
def blt (a b : XInt) : Bool := !(ble b a)

/-- Python unary minus on these values. -/
def neg : XInt → XInt
  | ninf => inf
  | inf => ninf
  | fin n => fin (-n)

/-- Python `max(a, b)` (returns the first argument on ties). -/
def pmax (a b : XInt) : XInt := if blt a b then b else a

/-- Python `min(a, b)` (returns the first argument on ties). -/
def pmin (a b : XInt) : XInt := if blt b a then b else a

end XInt

/-- python-chess piece types. -/
inductive PieceType where
  | pawn
  | knight
  | bishop
  | rook
  | queen
  | king
deriving DecidableEq

/-- A move as the engine consumes it: origin square, destination square,
optional promotion piece (python-chess `chess.Move`). -/
structure Move where
  from_sq : Nat
  to_sq : Nat
  promotion : Option PieceType
deriving DecidableEq

/-- python-chess `Move.__bool__`: a move is falsy only when origin, destination
and promotion are all zero/none (the null move). -/
def moveBool (m : Move) : Bool := !(m.from_sq == 0 && m.to_sq == 0 && m.promotion.isNone)

/-- The slice of the python-chess board interface the engine core consumes.
Colors are `Bool` with `true = chess.WHITE`.  `push` makes a move on the shared
mutable board and `pop` unmakes the most recent one. -/
structure BoardAPI (β : Type) where
  legal_moves : β → List Move
  push : β → Move → β
  pop : β → β
  is_capture : β → Move → Bool
  gives_check : β → Move → Bool
  is_check : β → Bool
  is_checkmate : β → Bool
  is_stalemate : β → Bool
  is_insufficient_material : β → Bool
  is_game_over : β → Bool
  turn : β → Bool
  pieces : β → PieceType → Bool → List Nat
  tkey : β → Nat
  piece_type_at : β → Nat → Option PieceType
  king : β → Bool → Option Nat

/-- `chess.square_mirror`: flip the rank of a 0..63 square index. -/
def square_mirror (sq : Nat) : Nat := sq ^^^ 56

/-- `MATE_VAL = 100_000` (engine.py). -/
def MATE_VAL : Int := 100000

/-- Material values in centipawns (engine.py `MATERIAL`). -/
def MATERIAL : PieceType → Int
  | .pawn => 100
  | .knight => 320
  | .bishop => 330
  | .rook => 500
  | .queen => 900
  | .king => 0

/-- Piece-square tables (engine.py `PSQT`), index 0 = a1, white's view. -/
def PSQT : PieceType → List Int
  | .pawn =>
      [  0,   0,   0,   0,   0,   0,   0,   0,
         5,  10,  10, -20, -20,  10,  10,   5,
         5,  -5, -10,   0,   0, -10,  -5,   5,
         0,   0,   0,  20,  20,   0,   0,   0,
         5,   5,  10,  25,  25,  10,   5,   5,
        10,  10,  20,  30,  30,  20,  10,  10,
        50,  50,  50,  50,  50,  50,  50,  50,
         0,   0,   0,   0,   0,   0,   0,   0]
  | .knight =>
      [-50, -40, -30, -30, -30, -30, -40, -50,
       -40, -20,   0,   0,   0,   0, -20, -40,
       -30,   0,  10,  15,  15,  10,   0, -30,
       -30,   5,  15,  20,  20,  15,   5, -30,
       -30,   0,  15,  20,  20,  15,   0, -30,
       -30,   5,  10,  15,  15,  10,   5, -30,
       -40, -20,   0,   5,   5,   0, -20, -40,
       -50, -40, -30, -30, -30, -30, -40, -50]
  | .bishop =>
      [-20, -10, -10, -10, -10, -10, -10, -20,
       -10,   0,   0,   0,   0,   0,   0, -10,
       -10,   0,   5,  10,  10,   5,   0, -10,
       -10,   5,   5,  10,  10,   5,   5, -10,
       -10,   0,  10,  10,  10,  10,   0, -10,
       -10,  10,  10,  10,  10,  10,  10, -10,
       -10,   5,   0,   0,   0,   0,   5, -10,
       -20, -10, -10, -10, -10, -10, -10, -20]
  | .rook =>
      [  0,   0,   0,   0,   0,   0,   0,   0,
         5,  10,  10,  10,  10,  10,  10,   5,
        -5,   0,   0,   0,   0,   0,   0,  -5,
        -5,   0,   0,   0,   0,   0,   0,  -5,
        -5,   0,   0,   0,   0,   0,   0,  -5,
        -5,   0,   0,   0,   0,   0,   0,  -5,
        -5,   0,   0,   0,   0,   0,   0,  -5,
         0,   0,   0,   5,   5,   0,   0,   0]
  | .queen =>
      [-20, -10, -10,  -5,  -5, -10, -10, -20,
       -10,   0,   0,   0,   0,   0,   0, -10,
       -10,   0,   5,   5,   5,   5,   0, -10,
        -5,   0,   5,   5,   5,   5,   0,  -5,
         0,   0,   5,   5,   5,   5,   0,  -5,
       -10,   5,   5,   5,   5,   5,   0, -10,
       -10,   0,   5,   0,   0,   0,   0, -10,
       -20, -10, -10,  -5,  -5, -10, -10, -20]
  | .king =>
      [-30, -40, -40, -50, -50, -40, -40, -30,
       -30, -40, -40, -50, -50, -40, -40, -30,
       -30, -40, -40, -50, -50, -40, -40, -30,
       -30, -40, -40, -50, -50, -40, -40, -30,
       -20, -30, -30, -40, -40, -30, -30, -20,
       -10, -20, -20, -20, -20, -20, -20, -10,
        20,  20,   0,   0,   0,   0,  20,  20,
        20,  30,  10,   0,   0,  10,  30,  20]

/-- `PSQT[p][sq]` lookup. -/
def PSQT_at (p : PieceType) (sq : Nat) : Int := (PSQT p).getD sq 0

/-- Iteration order of `MATERIAL.items()` (Python dicts preserve insertion
order), which is also `chess.PIECE_TYPES` order. -/
def PIECE_ORDER : List PieceType := [.pawn, .knight, .bishop, .rook, .queen, .king]

variable {β : Type}

/-- `Engine.evaluate` (engine.py): static evaluation with mate-distance
scaling, returning a plain integer score. -/
def evaluate (api : BoardAPI β) (b : β) (ply_from_root : Nat) : Int :=
  if api.is_checkmate b then -(MATE_VAL - (ply_from_root : Int))
  else if api.is_stalemate b || api.is_insufficient_material b then 0
  else
    let sc := PIECE_ORDER.foldl (fun acc p =>
      let acc1 := (api.pieces b p true).foldl
        (fun a sq => a + (MATERIAL p + PSQT_at p sq)) acc
      (api.pieces b p false).foldl
        (fun a sq => a - (MATERIAL p + PSQT_at p (square_mirror sq))) acc1) 0
    if api.turn b then sc else -sc

/-- The tactical-move guard of `Engine._qsearch`:
`board.is_capture(mv) or mv.promotion or board.gives_check(mv)`. -/
def tactical (api : BoardAPI β) (b : β) (mv : Move) : Bool :=
  api.is_capture b mv || mv.promotion.isSome || api.gives_check b mv

/-- The move loop of `Engine._qsearch`: iterate the legal moves, and for each
tactical one push it, recurse negated on the swapped negated window, pop, fail
high with `beta` when the score reaches `beta`, else raise `alpha`.  `rec` is
the recursive call at one less fuel. -/
def qloop (api : BoardAPI β) (rec : β → XInt → XInt → Nat → XInt × β)
    (beta : XInt) (ply : Nat) : List Move → β → XInt → XInt × β
  | [], b, alpha => (alpha, b)
  | mv :: rest, b, alpha =>
    if tactical api b mv then
      let b1 := api.push b mv
      let r := rec b1 (XInt.neg beta) (XInt.neg alpha) (ply + 1)
      let score := XInt.neg r.1
      let b3 := api.pop r.2
      if XInt.ble beta score then (beta, b3)
      else qloop api rec beta ply rest b3 (XInt.pmax alpha score)
    else qloop api rec beta ply rest b alpha

/-- `Engine._qsearch` (engine.py), with an explicit fuel parameter.  The pair
returned is (score, board state on exit). -/
def qsearchF (api : BoardAPI β) : Nat → β → XInt → XInt → Nat → XInt × β
  | 0, b, alpha, _, _ => (alpha, b)
  | fuel + 1, b, alpha, beta, ply =>
    let stand := XInt.fin (evaluate api b ply)
    if XInt.ble beta stand then (beta, b)
    else
      qloop api (fun b2 a bt p => qsearchF api fuel b2 a bt p) beta ply
        (api.legal_moves b) b (XInt.pmax alpha stand)

/-- engine.py `EXACT, LOWER, UPPER = 0, 1, 2`. -/
def EXACT : Nat := 0

/-- engine.py bound flag `LOWER = 1`. -/
def LOWER : Nat := 1

/-- engine.py bound flag `UPPER = 2`. -/
def UPPER : Nat := 2

/-- engine.py `TTEntry = namedtuple("TTEntry", "depth score flag best_move")`. -/
structure TTEntry where
  depth : Nat
  score : XInt
  flag : Nat
  best_move : Option Move
deriving DecidableEq

/-- The transposition table `self.tt`, a Python dict keyed by position key. -/
def TT : Type := Nat → Option TTEntry

/-- The empty dict `{}` that `Engine.__init__` starts from. -/
def TT.empty : TT := fun _ => none

/-- Python `self.tt[key] = entry`: unconditional overwrite. -/
def TT.set (t : TT) (k : Nat) (e : TTEntry) : TT :=
  fun k2 => if k2 = k then some e else t k2

/-- The TT probe at the top of `Engine._search`: `entry = self.tt.get(key)`
followed by the `entry and entry.depth >= depth` block.  Returns
(early-return score if any, adjusted alpha, adjusted beta). -/
def probeTT (t : TT) (key depth : Nat) (alpha beta : XInt) :
    Option XInt × XInt × XInt :=
  match t key with
  | some e =>
    if depth ≤ e.depth then
      if e.flag = EXACT then (some e.score, alpha, beta)
      else
        let alpha1 := if e.flag = LOWER then XInt.pmax alpha e.score else alpha
        let beta1 := if e.flag = UPPER then XInt.pmin beta e.score else beta
        if XInt.ble beta1 alpha1 then (some e.score, alpha1, beta1)
        else (none, alpha1, beta1)
    else (none, alpha, beta)
  | none => (none, alpha, beta)

/-- engine.py `sorted(board.legal_moves, key=board.is_capture, reverse=True)`:
Python's sort is stable, so with the boolean key and `reverse=True` this is
exactly "captures first, each group in original order". -/
def sortedMoves (api : BoardAPI β) (b : β) : List Move :=
  (api.legal_moves b).filter (api.is_capture b) ++
    (api.legal_moves b).filter (fun m => !(api.is_capture b m))

/-- The move loop of `Engine._search`: push, check extension, negated
recursion, pop, best tracking, alpha update, beta cutoff (`break`).  `rec` is
the recursive search at one less fuel.  Returns
(best_val, best_move, board on exit, TT on exit). -/
def searchLoop (api : BoardAPI β)
    (rec : β → TT → Nat → XInt → XInt → Nat → XInt × β × TT)
    (depth ply : Nat) (beta : XInt) :
    List Move → β → TT → XInt → XInt → Option Move →
      XInt × Option Move × β × TT
  | [], b, t, _, best_val, best_move => (best_val, best_move, b, t)
  | mv :: rest, b, t, alpha, best_val, best_move =>
    let b1 := api.push b mv
    let extra := if api.is_check b1 then 1 else 0
    let r := rec b1 t (depth - 1 + extra) (XInt.neg beta) (XInt.neg alpha) (ply + 1)
    let score := XInt.neg r.1
    let b3 := api.pop r.2.1
    let bv := if XInt.blt best_val score then score else best_val
    let bm := if XInt.blt best_val score then some mv else best_move
    let alpha1 := XInt.pmax alpha score
    if XInt.ble beta alpha1 then (bv, bm, b3, r.2.2)
    else searchLoop api rec depth ply beta rest b3 r.2.2 alpha1 bv bm

/-- The part of `Engine._search` after the TT probe: run the move loop from
the sentinel `-math.inf` best value, classify the result against the alpha in
force when the loop started (`alpha_orig`) and the beta in force after the
probe, and store the new entry unconditionally under the position key. -/
def searchCore (api : BoardAPI β)
    (rec : β → TT → Nat → XInt → XInt → Nat → XInt × β × TT)
    (b : β) (t : TT) (depth : Nat) (alpha beta : XInt) (ply : Nat) :
    XInt × β × TT :=
  let key := api.tkey b
  let L := searchLoop api rec depth ply beta (sortedMoves api b) b t alpha
    XInt.ninf none
  let flag := if XInt.ble L.1 alpha then UPPER
    else if XInt.ble beta L.1 then LOWER else EXACT
  (L.1, L.2.2.1, TT.set L.2.2.2 key ⟨depth, L.1, flag, L.2.1⟩)

/-- `Engine._search` (engine.py), with an explicit fuel parameter.  The triple
returned is (score, board state on exit, TT state on exit). -/
def searchF (api : BoardAPI β) :
    Nat → β → TT → Nat → XInt → XInt → Nat → XInt × β × TT
  | 0, b, t, _, alpha, _, _ => (alpha, b, t)
  | fuel + 1, b, t, depth, alpha, beta, ply =>
    if depth = 0 then
      let q := qsearchF api fuel b alpha beta ply
      (q.1, q.2, t)
    else
      let pr := probeTT t (api.tkey b) depth alpha beta
      match pr.1 with
      | some s => (s, b, t)
      | none =>
        searchCore api (fun b2 t2 d a bt p => searchF api fuel b2 t2 d a bt p)
          b t depth pr.2.1 pr.2.2 ply

/-- `entry = self.tt.get(tkey(board)); if entry and entry.best_move:` —
the driver's best-move update after a completed depth (a `TTEntry` namedtuple
is always truthy; a `chess.Move` is truthy unless it is the null move). -/
def recordBest (t : TT) (key : Nat) (prev : Option Move) : Option Move :=
  match t key with
  | some e =>
    match e.best_move with
    | some m => if moveBool m then some m else prev
    | none => prev
  | none => prev

/-- The iterative-deepening loop of `Engine.best_move`: `k` counts the depths
still permitted by `range(1, max_depth + 1)`, `depth` is the current depth.
`elapsed d` stands for the wall-clock reading `time.time() - start` observed
after the depth-`d` search completes; it is consulted nowhere else. -/
def bmLoop (api : BoardAPI β) (elapsed : Nat → Int) (time_limit : Int)
    (min_depth fuel : Nat) :
    Nat → Nat → β → TT → Option Move → Option Move × β × TT
  | 0, _, b, t, best => (best, b, t)
  | k + 1, depth, b, t, best =>
    let r := searchF api fuel b t depth XInt.ninf XInt.inf 0
    let best1 := recordBest r.2.2 (api.tkey r.2.1) best
    if min_depth ≤ depth ∧ time_limit ≤ elapsed depth then (best1, r.2.1, r.2.2)
    else bmLoop api elapsed time_limit min_depth fuel k (depth + 1) r.2.1 r.2.2 best1

/-- `Engine.best_move` (engine.py): iterative deepening from depth 1, then the
no-best-move fallback (`if best_move is None and not board.is_game_over():
for mv in board.legal_moves: return mv`). -/
def best_move (api : BoardAPI β) (elapsed : Nat → Int) (b : β) (t : TT)
    (time_limit : Int) (min_depth max_depth fuel : Nat) :
    Option Move × β × TT :=
  let r := bmLoop api elapsed time_limit min_depth fuel max_depth 1 b t none
  match r.1 with
  | some m => (some m, r.2.1, r.2.2)
  | none =>
    if api.is_game_over r.2.1 then (none, r.2.1, r.2.2)
    else
      match api.legal_moves r.2.1 with
      | [] => (none, r.2.1, r.2.2)
      | m :: _ => (some m, r.2.1, r.2.2)

/-- katfish_nnue.py `H1 = 256`: width of the layer-1 accumulator. -/
def H1 : Nat := 256

/-- katfish_nnue.py `OFFSET`: per-piece-type offset into the HalfKP feature
block. -/
def OFFSET : PieceType → Nat
  | .pawn => 0
  | .knight => 64
  | .bishop => 128
  | .rook => 192
  | .queen => 256
  | .king => 320

/-- One element of `NNUE.stack`: the tuple
`(piece, from_sq, to_sq, stm, king_before)` that `make_move` appends.  On the
(only) path where the append is observable the lookups have succeeded, so the
fields are stored plain. -/
structure UndoRec where
  piece : PieceType
  from_sq : Nat
  to_sq : Nat
  stm : Bool
  king_before : Nat
deriving DecidableEq

/-- The mutable state of an `NNUE` object that make/unmake touch: the layer-1
accumulator `self.l1` and the undo stack `self.stack`.  The fixed weights
`W1` (one row of `H1` ints per feature index) and bias `B1` are passed to the
functions that read them. -/
structure NNUEState where
  l1 : List Int
  stack : List UndoRec
deriving DecidableEq

/-- `NNUE._index`: `64 * king_sq + pc_sq + offset`. -/
def nnue_index (king_sq pc_sq offset : Nat) : Nat := 64 * king_sq + pc_sq + offset

/-- `NNUE._add_piece`: mirror the square for black, then
`self.l1 += sign * self.W1[idx]` elementwise. -/
def add_piece (W1 : Nat → List Int) (l1 : List Int) (piece : PieceType)
    (sq : Nat) (color : Bool) (king_sq : Nat) (sign : Int) : List Int :=
  let sq1 := if color = false then square_mirror sq else sq
  let idx := nnue_index king_sq sq1 (OFFSET piece)
  l1.zipWith (fun x w => x + sign * w) (W1 idx)

/-- One side of `NNUE.refresh`: fold a side's pieces into the accumulator with
the given sign.  `board.king` can return `None`; the source would then raise
inside `_index` at the first piece processed, embedded here as `none`. -/
def refreshSide (W1 : Nat → List Int) (api : BoardAPI β) (b : β)
    (color : Bool) (kingSq : Option Nat) (sign : Int) (l : List Int) :
    Option (List Int) :=
  PIECE_ORDER.foldl (fun acc p =>
    (api.pieces b p color).foldl (fun a sq =>
      match a, kingSq with
      | some l2, some k => some (add_piece W1 l2 p sq color k sign)
      | _, _ => none) acc) (some l)

/-- `NNUE.refresh`: reset the accumulator to `B1`, add the side to move's
pieces with `+1` and the opponent's with `-1` (each relative to its own king).
The undo stack is untouched. -/
def refresh (W1 : Nat → List Int) (B1 : List Int) (api : BoardAPI β) (b : β)
    (s : NNUEState) : Option NNUEState := do
  let stm := api.turn b
  let lw ← refreshSide W1 api b stm (api.king b stm) 1 B1
  let lb ← refreshSide W1 api b (!stm) (api.king b (!stm)) (-1) lw
  some ⟨lb, s.stack⟩

/-- `NNUE.make_move` (katfish_nnue.py): push the undo tuple, subtract the
moving piece at its origin, add back the captured piece (looked up at the
destination square) if the move is a capture, substitute the promotion piece,
then either refresh (king move) or add the piece at the destination.
Lookups that would raise in Python (`OFFSET[None]`, `64 * None`) are embedded
as a `none` result. -/
def make_move (W1 : Nat → List Int) (B1 : List Int) (api : BoardAPI β)
    (s : NNUEState) (b : β) (mv : Move) : Option NNUEState :=
  let stm := api.turn b
  match api.king b stm with
  | none => none
  | some king_before =>
    match api.piece_type_at b mv.from_sq with
    | none => none
    | some piece =>
      let stack1 : List UndoRec :=
        ⟨piece, mv.from_sq, mv.to_sq, stm, king_before⟩ :: s.stack
      let l1 := add_piece W1 s.l1 piece mv.from_sq stm king_before (-1)
      let capStep : Option (List Int) :=
        if api.is_capture b mv then
          match api.piece_type_at b mv.to_sq with
          | none => none
          | some cap =>
            match api.king b (!stm) with
            | none => none
            | some kopp => some (add_piece W1 l1 cap mv.to_sq (!stm) kopp 1)
        else some l1
      match capStep with
      | none => none
      | some l2 =>
        let piece2 := match mv.promotion with
          | some pr => pr
          | none => piece
        if piece2 = PieceType.king then
          refresh W1 B1 api b ⟨l2, stack1⟩
        else
          some ⟨add_piece W1 l2 piece2 mv.to_sq stm king_before 1, stack1⟩

/-- python-chess piece-type integers, used when numpy coerces the undo tuple's
entries (only the tuple's *length* matters to the claims: it is 5). -/
def pieceInt : PieceType → Int
  | .pawn => 1
  | .knight => 2
  | .bishop => 3
  | .rook => 4
  | .queen => 5
  | .king => 6

/-- The popped stack tuple viewed as the numpy source sequence of
`self.l1[:] = self.stack.pop()`: five scalars. -/
def undoToList (r : UndoRec) : List Int :=
  [pieceInt r.piece, (r.from_sq : Int), (r.to_sq : Int),
   if r.stm then 1 else 0, (r.king_before : Int)]

/-- numpy slice assignment `dst[:] = src`: succeeds when the lengths match or
`src` is a single scalar to broadcast; otherwise it raises
`ValueError: could not broadcast ...`. -/
def sliceAssign (dst src : List Int) : Option (List Int) :=
  if src.length = dst.length then some src
  else if src.length = 1 then some (List.replicate dst.length (src.headD 0))
  else none

/-- `NNUE.unmake` (katfish_nnue.py): `self.l1[:] = self.stack.pop()`.
Popping an empty stack raises; the assignment itself broadcasts the popped
5-tuple into the accumulator. -/
def unmake (s : NNUEState) : Option NNUEState :=
  match s.stack with
  | [] => none
  | r :: rest => (sliceAssign s.l1 (undoToList r)).map (fun l => ⟨l, rest⟩)

/-! ### Spec-side definitions

These follow the specification's wording (not the source) and are compared
with the source-derived definitions above by the refinement theorems. -/

/-- Modelled from the spec's wording of the evaluator (§4.1): checkmate gives
`-(MATE_VALUE - plyFromRoot)`; stalemate or insufficient material gives
exactly 0; otherwise the sum over every piece type and color of material value
plus piece-square value, black read at the vertically mirrored square and
subtracted, the total negated when black is to move. -/
def evaluateClaim (api : BoardAPI β) (b : β) (ply_from_root : Nat) : Int :=
  if api.is_checkmate b then -(MATE_VAL - (ply_from_root : Int))
  else if api.is_stalemate b || api.is_insufficient_material b then 0
  else
    let total := (PIECE_ORDER.map (fun p =>
      ((api.pieces b p true).map (fun sq => MATERIAL p + PSQT_at p sq)).sum -
        ((api.pieces b p false).map
          (fun sq => MATERIAL p + PSQT_at p (square_mirror sq))).sum)).sum
    if api.turn b then total else -total

/-- Modelled from the spec's wording of quiescence (§4.2, claim C6): the fold
over the pre-filtered list of *tactical* moves only — make, recurse negated on
the swapped negated window, unmake, return `beta` as soon as a score reaches
`beta`, else raise `alpha`; return the final `alpha` when no tactical move
remains. -/
def qloopClaim (api : BoardAPI β) (rec : β → XInt → XInt → Nat → XInt × β)
    (beta : XInt) (ply : Nat) : List Move → β → XInt → XInt × β
  | [], b, alpha => (alpha, b)
  | mv :: rest, b, alpha =>
    let b1 := api.push b mv
    let r := rec b1 (XInt.neg beta) (XInt.neg alpha) (ply + 1)
    let score := XInt.neg r.1
    let b3 := api.pop r.2
    if XInt.ble beta score then (beta, b3)
    else qloopClaim api rec beta ply rest b3 (XInt.pmax alpha score)

/-- Modelled from the spec's wording of quiescence (§4.2, claim C6):
`stand = evaluate(position, ply)`; fail high with `beta` when `stand >= beta`;
otherwise raise `alpha` to `max(alpha, stand)` and fold over exactly the
tactical moves (captures, promotions, checks). -/
def qsearchClaim (api : BoardAPI β) : Nat → β → XInt → XInt → Nat → XInt × β
  | 0, b, alpha, _, _ => (alpha, b)
  | fuel + 1, b, alpha, beta, ply =>
    let stand := XInt.fin (evaluate api b ply)
    if XInt.ble beta stand then (beta, b)
    else
      qloopClaim api (fun b2 a bt p => qsearchClaim api fuel b2 a bt p) beta ply
        ((api.legal_moves b).filter (tactical api b)) b (XInt.pmax alpha stand)

/-- Modelled from the spec's wording of the deepening driver (§4.4, claim C8):
the schedule of depths the driver completes, starting at `depth` with `k`
depths still allowed by `maxDepth` — each depth is run, and deepening stops
right after the first completed depth that is both `>= minDepth` and whose
elapsed wall-clock reading has reached the time limit. -/
def plannedDepths (elapsed : Nat → Int) (time_limit : Int) (min_depth : Nat) :
    Nat → Nat → List Nat
  | 0, _ => []
  | k + 1, depth =>
    if min_depth ≤ depth ∧ time_limit ≤ elapsed depth then [depth]
    else depth :: plannedDepths elapsed time_limit min_depth k (depth + 1)

/-- The work done for one completed depth of the driver: a full-window search
at that depth followed by the TT best-move read-back.  The wall clock is not
an input: a completed depth's work cannot consult it. -/
def processDepth (api : BoardAPI β) (fuel : Nat)
    (st : β × TT × Option Move) (depth : Nat) : β × TT × Option Move :=
  let r := searchF api fuel st.1 st.2.1 depth XInt.ninf XInt.inf 0
  (r.2.1, r.2.2, recordBest r.2.2 (api.tkey r.2.1) st.2.2)

/-! ### Concrete board instances

Small concrete `BoardAPI` instances used by witnesses and counterexamples.
They instantiate only the behaviour each scenario needs; `stackApi` models the
board as its own move stack so that `pop (push b m) = b` holds by computation. -/

/-- A board modelled as the stack of moves pushed onto it: `push` is cons and
`pop` drops the newest move, so the push/pop law holds definitionally. -/
def stackApi : BoardAPI (List Move) where
  legal_moves := fun b => if b = [] then [⟨8, 16, none⟩] else []
  push := fun b m => m :: b
  pop := fun b => b.tail
  is_capture := fun _ _ => false
  gives_check := fun _ _ => false
  is_check := fun _ => false
  is_checkmate := fun _ => false
  is_stalemate := fun _ => false
  is_insufficient_material := fun _ => false
  is_game_over := fun _ => false
  turn := fun _ => true
  pieces := fun _ _ _ => []
  tkey := fun b => b.length
  piece_type_at := fun _ _ => none
  king := fun _ _ => some 4

/-- A quiet position for the NNUE scenarios: a white knight stands on g1
(square 6), the white king on e1 (square 4), the black king on e8 (square 60);
the move under test is the non-capture Ng1-f3. -/
def nnApi : BoardAPI Unit where
  legal_moves := fun _ => []
  push := fun b _ => b
  pop := fun b => b
  is_capture := fun _ _ => false
  gives_check := fun _ _ => false
  is_check := fun _ => false
  is_checkmate := fun _ => false
  is_stalemate := fun _ => false
  is_insufficient_material := fun _ => false
  is_game_over := fun _ => false
  turn := fun _ => true
  pieces := fun _ _ _ => []
  tkey := fun _ => 0
  piece_type_at := fun _ sq => if sq = 6 then some .knight else none
  king := fun _ c => if c then some 4 else some 60

/-- The en-passant scenario: white pawn on e5 (square 36), black just played
d7-d5; the en-passant capture e5xd6 has destination d6 (square 43), which is
*empty* — the captured pawn stands on d5 (square 35).  python-chess reports
`is_capture = True` for it. -/
def epApi : BoardAPI Unit where
  legal_moves := fun _ => [⟨36, 43, none⟩]
  push := fun b _ => b
  pop := fun b => b
  is_capture := fun _ _ => true
  gives_check := fun _ _ => false
  is_check := fun _ => false
  is_checkmate := fun _ => false
  is_stalemate := fun _ => false
  is_insufficient_material := fun _ => false
  is_game_over := fun _ => false
  turn := fun _ => true
  pieces := fun _ _ _ => []
  tkey := fun _ => 0
  piece_type_at := fun _ sq =>
    if sq = 36 then some .pawn else if sq = 35 then some .pawn else none
  king := fun _ c => if c then some 4 else some 60

/-- Abstraction of a root position drawn by the seventy-five-move rule
(`is_game_over` true, legal moves still available) whose only legal move gives
check and is answered by a cross-check that checkmates the mover.  States:
0 = root, 1 = after the root's only move (a check), 2 = after the opponent's
checking reply, which is checkmate (no legal moves).  `push`/`pop` move along
this line, so `pop (push b m) = b` holds definitionally. -/
def cApi : BoardAPI Nat where
  legal_moves := fun b =>
    if b = 0 then [⟨12, 28, none⟩] else if b = 1 then [⟨50, 42, none⟩] else []
  push := fun b _ => b + 1
  pop := fun b => b - 1
  is_capture := fun _ _ => false
  gives_check := fun _ _ => false
  is_check := fun b => b = 1 || b = 2
  is_checkmate := fun b => b = 2
  is_stalemate := fun _ => false
  is_insufficient_material := fun _ => false
  is_game_over := fun b => b = 0
  turn := fun b => b % 2 = 0
  pieces := fun _ _ _ => []
  tkey := fun b => b
  piece_type_at := fun _ _ => none
  king := fun _ _ => some 4

/-- All-zero layer-1 weights for the concrete NNUE scenarios. -/
def W1zero : Nat → List Int := fun _ => List.replicate H1 0

/-- All-zero layer-1 bias for the concrete NNUE scenarios. -/
def B1zero : List Int := List.replicate H1 0

/-- A freshly refreshed NNUE state with an all-zero accumulator of width `H1`
and an empty undo stack. -/
def nn0 : NNUEState := ⟨List.replicate H1 0, []⟩

/-! ### Board-restoration lemmas (shared helpers) -/

/-- The quiescence move loop leaves the board where it found it, provided the
recursive call does and `pop` undoes `push`. -/
theorem qloop_board (api : BoardAPI β)
    (hpp : ∀ b m, api.pop (api.push b m) = b)
    (rec : β → XInt → XInt → Nat → XInt × β)
    (hrec : ∀ b a bt p, (rec b a bt p).2 = b) (beta : XInt) (ply : Nat) :
    ∀ (ms : List Move) (b : β) (alpha : XInt),
      (qloop api rec beta ply ms b alpha).2 = b := by
  intro ms
  induction ms with
  | nil => intro b alpha; rfl
  | cons mv rest ih =>
    intro b alpha
    simp only [qloop]
    split
    · have hb3 : api.pop
          (rec (api.push b mv) (XInt.neg beta) (XInt.neg alpha) (ply + 1)).2 = b := by
        rw [hrec, hpp]
      split
      · exact hb3
      · rw [ih]; exact hb3
    · exact ih b alpha

/-- `Engine._qsearch` leaves the board where it found it, for every fuel. -/
theorem qsearchF_board (api : BoardAPI β)
    (hpp : ∀ b m, api.pop (api.push b m) = b) :
    ∀ (fuel : Nat) (b : β) (alpha beta : XInt) (ply : Nat),
      (qsearchF api fuel b alpha beta ply).2 = b := by
  intro fuel
  induction fuel with
  | zero => intro b alpha beta ply; rfl
  | succ n ih =>
    intro b alpha beta ply
    simp only [qsearchF]
    split
    · rfl
    · exact qloop_board api hpp _ (fun b2 a bt p => ih b2 a bt p) beta ply _ b _

/-- The main-search move loop leaves the board where it found it, on both the
cutoff exit and the exhausted exit. -/
theorem searchLoop_board (api : BoardAPI β)
    (hpp : ∀ b m, api.pop (api.push b m) = b)
    (rec : β → TT → Nat → XInt → XInt → Nat → XInt × β × TT)
    (hrec : ∀ b t d a bt p, (rec b t d a bt p).2.1 = b)
    (depth ply : Nat) (beta : XInt) :
    ∀ (ms : List Move) (b : β) (t : TT) (alpha bv : XInt) (bm : Option Move),
      (searchLoop api rec depth ply beta ms b t alpha bv bm).2.2.1 = b := by
  intro ms
  induction ms with
  | nil => intro b t alpha bv bm; rfl
  | cons mv rest ih =>
    intro b t alpha bv bm
    simp only [searchLoop]
    have hb3 : ∀ d, api.pop
        (rec (api.push b mv) t d (XInt.neg beta) (XInt.neg alpha) (ply + 1)).2.1 = b :=
      fun d => by rw [hrec, hpp]
    split <;> split <;>
      first
        | exact hb3 _
        | (rw [ih]; exact hb3 _)

/-- `Engine._search` leaves the board where it found it, for every fuel. -/
theorem searchF_board (api : BoardAPI β)
    (hpp : ∀ b m, api.pop (api.push b m) = b) :
    ∀ (fuel : Nat) (b : β) (t : TT) (depth : Nat) (alpha beta : XInt) (ply : Nat),
      (searchF api fuel b t depth alpha beta ply).2.1 = b := by
  intro fuel
  induction fuel with
  | zero => intro b t depth alpha beta ply; rfl
  | succ n ih =>
    intro b t depth alpha beta ply
    simp only [searchF]
    split
    · exact qsearchF_board api hpp n b alpha beta ply
    · split
      · rfl
      · simp only [searchCore]
        exact searchLoop_board api hpp _ (fun b2 t2 d a bt p => ih b2 t2 d a bt p)
          depth ply _ _ b t _ _ _

/-- The iterative-deepening loop leaves the board where it found it. -/
theorem bmLoop_board (api : BoardAPI β)
    (hpp : ∀ b m, api.pop (api.push b m) = b)
    (elapsed : Nat → Int) (tl : Int) (min_d fuel : Nat) :
    ∀ (k depth : Nat) (b : β) (t : TT) (best : Option Move),
      (bmLoop api elapsed tl min_d fuel k depth b t best).2.1 = b := by
  intro k
  induction k with
  | zero => intro depth b t best; rfl
  | succ n ih =>
    intro depth b t best
    simp only [bmLoop]
    split
    · exact searchF_board api hpp fuel b t depth _ _ 0
    · rw [ih]; exact searchF_board api hpp fuel b t depth _ _ 0

/-- C2: for every position, depth, window and ply, `Engine._search` and
`Engine._qsearch` return with the shared board restored to exactly its
pre-call state on every return path (the hypothesis is the python-chess
contract that `board.pop()` undoes `board.push(mv)`). -/
theorem search_restores_board (api : BoardAPI β)
    (hpp : ∀ b m, api.pop (api.push b m) = b)
    (fuel : Nat) (b : β) (t : TT) (depth : Nat) (alpha beta : XInt) (ply : Nat) :
    (searchF api fuel b t depth alpha beta ply).2.1 = b ∧
      (qsearchF api fuel b alpha beta ply).2 = b :=
  ⟨searchF_board api hpp fuel b t depth alpha beta ply,
   qsearchF_board api hpp fuel b alpha beta ply⟩

/-- Witness for C2 at a concrete board, depth and window. -/
theorem search_restores_board_witness :
    (∀ (b : List Move) (m : Move), stackApi.pop (stackApi.push b m) = b) ∧
      ((searchF stackApi 3 [] TT.empty 2 XInt.ninf XInt.inf 0).2.1 = [] ∧
        (qsearchF stackApi 3 [] XInt.ninf XInt.inf 0).2 = []) :=
  ⟨fun _ _ => rfl,
   search_restores_board stackApi (fun _ _ => rfl) 3 [] TT.empty 2
     XInt.ninf XInt.inf 0⟩

/-- C3: at `depth >= 1`, when the TT holds an entry for the position key with
`entry.depth >= depth`: an `EXACT` entry's score is returned directly; a
`LOWER` entry raises alpha to `max(alpha, score)` and an `UPPER` entry lowers
beta to `min(beta, score)` before the move loop runs; and if the adjusted
window is empty the stored score is returned without searching any move. -/
theorem tt_probe_semantics (api : BoardAPI β) (fuel : Nat) (b : β) (t : TT)
    (depth : Nat) (alpha beta : XInt) (ply : Nat) (e : TTEntry)
    (he : t (api.tkey b) = some e) (hd : depth ≤ e.depth) (h0 : depth ≠ 0) :
    (e.flag = EXACT →
      searchF api (fuel + 1) b t depth alpha beta ply = (e.score, b, t)) ∧
    (e.flag = LOWER →
      searchF api (fuel + 1) b t depth alpha beta ply =
        if XInt.ble beta (XInt.pmax alpha e.score) then (e.score, b, t)
        else searchCore api
          (fun b2 t2 d a bt p => searchF api fuel b2 t2 d a bt p)
          b t depth (XInt.pmax alpha e.score) beta ply) ∧
    (e.flag = UPPER →
      searchF api (fuel + 1) b t depth alpha beta ply =
        if XInt.ble (XInt.pmin beta e.score) alpha then (e.score, b, t)
        else searchCore api
          (fun b2 t2 d a bt p => searchF api fuel b2 t2 d a bt p)
          b t depth alpha (XInt.pmin beta e.score) ply) := by
  refine ⟨fun hf => ?_, fun hf => ?_, fun hf => ?_⟩
  · simp [searchF, if_neg h0, probeTT, he, if_pos hd, hf, EXACT]
  · simp only [searchF, if_neg h0, probeTT, he, if_pos hd, hf]
    norm_num [EXACT, LOWER, UPPER]
    cases hble : XInt.ble beta (XInt.pmax alpha e.score) <;> simp [hble]
  · simp only [searchF, if_neg h0, probeTT, he, if_pos hd, hf]
    norm_num [EXACT, LOWER, UPPER]
    cases hble : XInt.ble (XInt.pmin beta e.score) alpha <;> simp [hble]

/-- Witness for C3: an `EXACT` entry of sufficient depth is returned directly
at a concrete position and window. -/
theorem tt_probe_semantics_witness :
    (TT.set TT.empty 0 ⟨3, XInt.fin 42, EXACT, none⟩ (stackApi.tkey []) =
        some ⟨3, XInt.fin 42, EXACT, none⟩ ∧ 2 ≤ 3 ∧ (2 : Nat) ≠ 0) ∧
      searchF stackApi (2 + 1) [] (TT.set TT.empty 0 ⟨3, XInt.fin 42, EXACT, none⟩)
          2 XInt.ninf XInt.inf 0 =
        (XInt.fin 42, [], TT.set TT.empty 0 ⟨3, XInt.fin 42, EXACT, none⟩) :=
  ⟨⟨rfl, by decide, by decide⟩,
   (tt_probe_semantics stackApi 2 [] _ 2 XInt.ninf XInt.inf 0
      ⟨3, XInt.fin 42, EXACT, none⟩ rfl (by decide) (by decide)).1 rfl⟩

/-- C4: whenever `_search` at `depth >= 1` completes its move loop (no early
TT return), it stores under the position key — overwriting whatever entry that
key held — the entry `{depth, best, flag, best_move}` with `flag = UPPER` if
`best <= alpha_orig` (the alpha in force when the loop started, i.e. after the
probe's adjustment), else `LOWER` if `best >= beta`, else `EXACT`, and returns
`best`. -/
theorem tt_store_semantics (api : BoardAPI β) (fuel : Nat) (b : β) (t : TT)
    (depth : Nat) (alpha beta : XInt) (ply : Nat) (h0 : depth ≠ 0)
    (hpr : (probeTT t (api.tkey b) depth alpha beta).1 = none) :
    ∃ bv bm,
      (searchF api (fuel + 1) b t depth alpha beta ply).1 = bv ∧
      (searchF api (fuel + 1) b t depth alpha beta ply).2.2 (api.tkey b) =
        some ⟨depth, bv,
          if XInt.ble bv (probeTT t (api.tkey b) depth alpha beta).2.1 then UPPER
          else if XInt.ble (probeTT t (api.tkey b) depth alpha beta).2.2 bv then LOWER
          else EXACT, bm⟩ := by
  have h1 : searchF api (fuel + 1) b t depth alpha beta ply =
      searchCore api (fun b2 t2 d a bt p => searchF api fuel b2 t2 d a bt p)
        b t depth (probeTT t (api.tkey b) depth alpha beta).2.1
        (probeTT t (api.tkey b) depth alpha beta).2.2 ply := by
    simp only [searchF, if_neg h0]
    split
    · rename_i heq
      rw [hpr] at heq
      exact absurd heq (by simp)
    · rfl
  rw [h1]
  simp only [searchCore]
  generalize searchLoop api (fun b2 t2 d a bt p => searchF api fuel b2 t2 d a bt p)
      depth ply (probeTT t (api.tkey b) depth alpha beta).2.2 (sortedMoves api b) b t
      (probeTT t (api.tkey b) depth alpha beta).2.1 XInt.ninf none = L
  exact ⟨L.1, L.2.1, rfl, by simp [TT.set]⟩

/-- Witness for C4 at a concrete position with an empty table. -/
theorem tt_store_semantics_witness :
    ((2 : Nat) ≠ 0 ∧
        (probeTT TT.empty (stackApi.tkey []) 2 XInt.ninf XInt.inf).1 = none) ∧
      ∃ bv bm,
        (searchF stackApi (2 + 1) [] TT.empty 2 XInt.ninf XInt.inf 0).1 = bv ∧
        (searchF stackApi (2 + 1) [] TT.empty 2 XInt.ninf XInt.inf 0).2.2
            (stackApi.tkey []) =
          some ⟨2, bv,
            if XInt.ble bv (probeTT TT.empty (stackApi.tkey []) 2 XInt.ninf XInt.inf).2.1
              then UPPER
            else if XInt.ble (probeTT TT.empty (stackApi.tkey []) 2 XInt.ninf XInt.inf).2.2 bv
              then LOWER
            else EXACT, bm⟩ :=
  ⟨⟨by decide, rfl⟩,
   tt_store_semantics stackApi 2 [] TT.empty 2 XInt.ninf XInt.inf 0 (by decide) rfl⟩

/-- C9: `_search` at `depth >= 1` on a position with zero legal moves (and no
TT cutoff) runs zero loop iterations, keeps the `-math.inf` sentinel, returns
it, and stores a TT entry whose `best_move` is `None` (its flag is `UPPER`,
since the sentinel is `<=` every `alpha_orig`). -/
theorem search_no_moves_sentinel (api : BoardAPI β) (fuel : Nat) (b : β)
    (t : TT) (depth : Nat) (alpha beta : XInt) (ply : Nat) (h0 : depth ≠ 0)
    (hleg : api.legal_moves b = [])
    (hpr : (probeTT t (api.tkey b) depth alpha beta).1 = none) :
    searchF api (fuel + 1) b t depth alpha beta ply =
      (XInt.ninf, b, TT.set t (api.tkey b) ⟨depth, XInt.ninf, UPPER, none⟩) := by
  have h1 : searchF api (fuel + 1) b t depth alpha beta ply =
      searchCore api (fun b2 t2 d a bt p => searchF api fuel b2 t2 d a bt p)
        b t depth (probeTT t (api.tkey b) depth alpha beta).2.1
        (probeTT t (api.tkey b) depth alpha beta).2.2 ply := by
    simp only [searchF, if_neg h0]
    split
    · rename_i heq
      rw [hpr] at heq
      exact absurd heq (by simp)
    · rfl
  rw [h1]
  simp [searchCore, sortedMoves, hleg, searchLoop, XInt.ble]

/-- Witness for C9 at a concrete move-less position. -/
theorem search_no_moves_sentinel_witness :
    ((1 : Nat) ≠ 0 ∧ stackApi.legal_moves [⟨8, 16, none⟩] = [] ∧
        (probeTT TT.empty (stackApi.tkey [⟨8, 16, none⟩]) 1 XInt.ninf XInt.inf).1 =
          none) ∧
      searchF stackApi (2 + 1) [⟨8, 16, none⟩] TT.empty 1 XInt.ninf XInt.inf 0 =
        (XInt.ninf, [⟨8, 16, none⟩],
          TT.set TT.empty (stackApi.tkey [⟨8, 16, none⟩])
            ⟨1, XInt.ninf, UPPER, none⟩) :=
  ⟨⟨by decide, rfl, rfl⟩,
   search_no_moves_sentinel stackApi 2 [⟨8, 16, none⟩] TT.empty 1
     XInt.ninf XInt.inf 0 (by decide) rfl rfl⟩

/-- Folding additions is summing. -/
theorem foldl_add_sum (f : Nat → Int) :
    ∀ (l : List Nat) (acc : Int),
      l.foldl (fun a sq => a + f sq) acc = acc + (l.map f).sum := by
  intro l
  induction l with
  | nil => intro acc; simp
  | cons x xs ih => intro acc; simp [ih, add_assoc]

/-- Folding subtractions is subtracting the sum. -/
theorem foldl_sub_sum (f : Nat → Int) :
    ∀ (l : List Nat) (acc : Int),
      l.foldl (fun a sq => a - f sq) acc = acc - (l.map f).sum := by
  intro l
  induction l with
  | nil => intro acc; simp
  | cons x xs ih => intro acc; simp [ih, sub_sub]

/-- The evaluator's nested piece fold equals the per-piece-type sum of white
contributions minus black contributions. -/
theorem eval_fold (api : BoardAPI β) (b : β) :
    ∀ (l : List PieceType) (acc : Int),
      l.foldl (fun acc p =>
        let acc1 := (api.pieces b p true).foldl
          (fun a sq => a + (MATERIAL p + PSQT_at p sq)) acc
        (api.pieces b p false).foldl
          (fun a sq => a - (MATERIAL p + PSQT_at p (square_mirror sq))) acc1) acc =
      acc + (l.map (fun p =>
        ((api.pieces b p true).map (fun sq => MATERIAL p + PSQT_at p sq)).sum -
          ((api.pieces b p false).map
            (fun sq => MATERIAL p + PSQT_at p (square_mirror sq))).sum)).sum := by
  intro l
  induction l with
  | nil => intro acc; simp
  | cons p ps ih =>
    intro acc
    simp only [List.foldl_cons, List.map_cons, List.sum_cons]
    rw [foldl_add_sum, foldl_sub_sum, ih]
    ring

/-- C5: `Engine.evaluate` returns `-(MATE_VAL - ply)` on checkmate, exactly 0
on stalemate or insufficient material regardless of material imbalance, and
otherwise the sum over every piece type and color of material plus
piece-square value (black mirrored and subtracted), negated when black is to
move. -/
theorem evaluate_matches_claim (api : BoardAPI β) (b : β) (ply : Nat) :
    evaluate api b ply = evaluateClaim api b ply := by
  simp only [evaluate, evaluateClaim]
  rw [eval_fold api b PIECE_ORDER 0, zero_add]

/-- The quiescence loop over all legal moves with the tactical guard inside
equals the claim's loop over the pre-filtered tactical moves, provided the
recursion restores the board and the two recursions agree. -/
theorem qloop_filter (api : BoardAPI β)
    (hpp : ∀ b m, api.pop (api.push b m) = b)
    (rec1 rec2 : β → XInt → XInt → Nat → XInt × β)
    (heq : ∀ b a bt p, rec1 b a bt p = rec2 b a bt p)
    (hb : ∀ b a bt p, (rec1 b a bt p).2 = b) (beta : XInt) (ply : Nat) :
    ∀ (ms : List Move) (b : β) (alpha : XInt),
      qloop api rec1 beta ply ms b alpha =
        qloopClaim api rec2 beta ply (ms.filter (tactical api b)) b alpha := by
  intro ms
  induction ms with
  | nil => intro b alpha; rfl
  | cons mv rest ih =>
    intro b alpha
    by_cases ht : tactical api b mv
    · simp only [qloop, qloopClaim, List.filter_cons, ht, if_pos]
      rw [← heq]
      have hb3 : api.pop
          (rec1 (api.push b mv) (XInt.neg beta) (XInt.neg alpha) (ply + 1)).2 = b := by
        rw [hb, hpp]
      split
      · rfl
      · rw [ih, hb3]
    · simp only [qloop, qloopClaim, List.filter_cons, ht]
      simp only [Bool.false_eq_true, if_false, if_neg ht]
      exact ih b alpha

/-- C6: `Engine._qsearch` equals its specification: stand pat with immediate
`beta` fail-high, alpha raised to `max(alpha, stand)`, recursion (negated, on
the swapped negated window) on exactly the tactical moves, `beta` returned as
soon as a recursive score reaches `beta`, and the final alpha returned when no
tactical move remains. -/
theorem qsearch_matches_claim (api : BoardAPI β)
    (hpp : ∀ b m, api.pop (api.push b m) = b) (fuel : Nat) (b : β)
    (alpha beta : XInt) (ply : Nat) :
    qsearchF api fuel b alpha beta ply = qsearchClaim api fuel b alpha beta ply := by
  induction fuel generalizing b alpha beta ply with
  | zero => rfl
  | succ n ih =>
    simp only [qsearchF, qsearchClaim]
    split
    · rfl
    · exact qloop_filter api hpp _ _ (fun b2 a bt p => ih b2 a bt p)
        (fun b2 a bt p => qsearchF_board api hpp n b2 a bt p) beta ply
        (api.legal_moves b) b _

/-- Witness for C6 at a concrete position and window. -/
theorem qsearch_matches_claim_witness :
    (∀ (b : List Move) (m : Move), stackApi.pop (stackApi.push b m) = b) ∧
      qsearchF stackApi 3 [] XInt.ninf XInt.inf 0 =
        qsearchClaim stackApi 3 [] XInt.ninf XInt.inf 0 :=
  ⟨fun _ _ => rfl,
   qsearch_matches_claim stackApi (fun _ _ => rfl) 3 [] XInt.ninf XInt.inf 0⟩

/-- C8: the deepening loop runs exactly the depths of `plannedDepths` — one
full-window search per depth, the clock being no input to a depth's work
(`processDepth` does not take `elapsed`) — and `plannedDepths` stops at the
first completed depth that is `>= min_depth` with `elapsed >= time_limit`,
while a depth below `min_depth` always continues regardless of the clock. -/
theorem deepening_stops_per_schedule (api : BoardAPI β) (elapsed : Nat → Int)
    (time_limit : Int) (min_depth fuel k depth : Nat) (b : β) (t : TT)
    (best : Option Move) :
    (bmLoop api elapsed time_limit min_depth fuel k depth b t best =
      (fun st => (st.2.2, st.1, st.2.1))
        ((plannedDepths elapsed time_limit min_depth k depth).foldl
          (processDepth api fuel) (b, t, best))) ∧
    (min_depth ≤ depth → time_limit ≤ elapsed depth →
      plannedDepths elapsed time_limit min_depth (k + 1) depth = [depth]) ∧
    (depth < min_depth →
      plannedDepths elapsed time_limit min_depth (k + 1) depth =
        depth :: plannedDepths elapsed time_limit min_depth k (depth + 1)) := by
  refine ⟨?_, ?_, ?_⟩
  · induction k generalizing depth b t best with
    | zero => rfl
    | succ n ih =>
      simp only [bmLoop, plannedDepths]
      split
      · simp [processDepth]
      · simp only [List.foldl_cons]
        rw [ih]
        rfl
  · intro h1 h2
    simp only [plannedDepths]
    rw [if_pos ⟨h1, h2⟩]
  · intro h
    simp only [plannedDepths]
    rw [if_neg (fun hc => absurd hc.1 (by omega))]

/-- Witness for C8: at a concrete schedule the loop stops at depth 2
(`min_depth = 2`, clock already over budget), matching the planned depths. -/
theorem deepening_stops_per_schedule_witness :
    ((2 : Nat) ≤ 2 ∧ (2 : Int) ≤ (fun _ => (10 : Int)) 2) ∧
      plannedDepths (fun _ => (10 : Int)) 2 2 (3 + 1) 2 = [2] ∧
      bmLoop cApi (fun _ => (10 : Int)) 2 2 6 (3 + 1) 2 0 TT.empty none =
        (fun st => (st.2.2, st.1, st.2.1))
          ((plannedDepths (fun _ => (10 : Int)) 2 2 (3 + 1) 2).foldl
            (processDepth cApi 6) (0, TT.empty, none)) :=
  ⟨⟨by decide, by decide⟩,
   (deepening_stops_per_schedule cApi (fun _ => (10 : Int)) 2 2 6 3 2 0
      TT.empty none).2.1 (by decide) (by decide),
   (deepening_stops_per_schedule cApi (fun _ => (10 : Int)) 2 2 6 4 2 0
      TT.empty none).1⟩

set_option maxRecDepth 100000 in
/-- C7, counterexample: on the concrete `cApi` scenario — root drawn by the
seventy-five-move rule (`is_game_over` true) yet holding one legal move, that
move giving check and being answered by a cross-check mate, so every depth's
search scores the root move `-inf` and records no best move — `best_move`
returns `None` with default parameters even though a legal move exists,
refuting "returns None only when the position has no legal moves at all". -/
theorem best_move_none_counterexample :
    (best_move cApi (fun _ => (10 : Int)) 0 TT.empty 2 2 64 8).1 = none ∧
      cApi.legal_moves 0 ≠ [] := by
  constructor
  · decide
  · decide

/-- C7 as amended: `best_move` returns `None` only when the position has no
legal moves *or is game-over*; whenever the search recorded no best move and
the position is not game-over, it falls back to the first legal move, so
every non-game-over position with a legal move yields some move. -/
theorem best_move_fallback_amended (api : BoardAPI β)
    (hpp : ∀ b m, api.pop (api.push b m) = b) (elapsed : Nat → Int)
    (b : β) (t : TT) (tl : Int) (min_d max_d fuel : Nat) :
    ((best_move api elapsed b t tl min_d max_d fuel).1 = none →
      api.legal_moves b = [] ∨ api.is_game_over b = true) ∧
    (api.is_game_over b = false → api.legal_moves b ≠ [] →
      (best_move api elapsed b t tl min_d max_d fuel).1 ≠ none) := by
  have hb : (bmLoop api elapsed tl min_d fuel max_d 1 b t none).2.1 = b :=
    bmLoop_board api hpp elapsed tl min_d fuel max_d 1 b t none
  simp only [best_move]
  rcases hr : (bmLoop api elapsed tl min_d fuel max_d 1 b t none).1 with _ | m
  · simp only [hr, hb]
    by_cases hgo : api.is_game_over b = true
    · exact ⟨fun _ => Or.inr hgo,
        fun hgo2 _ => by rw [hgo2] at hgo; exact absurd hgo (by decide)⟩
    · rw [if_neg hgo]
      rcases hleg : api.legal_moves b with _ | ⟨m1, ms⟩
      · exact ⟨fun _ => Or.inl rfl, fun _ hne => absurd rfl hne⟩
      · refine ⟨fun hres => ?_, fun _ _ hres => ?_⟩ <;> simp at hres
  · simp only [hr]
    refine ⟨fun hres => ?_, fun _ _ hres => ?_⟩ <;> simp at hres

/-- Witness for the amended C7 at a concrete instance. -/
theorem best_move_fallback_amended_witness :
    (∀ (b : Nat) (m : Move), cApi.pop (cApi.push b m) = b) ∧
      (((best_move cApi (fun _ => (10 : Int)) 0 TT.empty 2 2 64 8).1 = none →
          cApi.legal_moves 0 = [] ∨ cApi.is_game_over 0 = true) ∧
        (cApi.is_game_over 0 = false → cApi.legal_moves 0 ≠ [] →
          (best_move cApi (fun _ => (10 : Int)) 0 TT.empty 2 2 64 8).1 ≠ none)) :=
  ⟨fun _ _ => rfl,
   best_move_fallback_amended cApi (fun _ _ => rfl) (fun _ => (10 : Int)) 0
     TT.empty 2 2 64 8⟩

set_option maxRecDepth 100000 in
/-- C1 (code bug): `make_move` does *not* push the pre-move accumulator —
it pushes the tuple `(piece, from_sq, to_sq, stm, king_before)` — and the
subsequent `unmake`, `self.l1[:] = self.stack.pop()`, tries to broadcast that
5-element tuple into the 256-wide accumulator and fails (numpy `ValueError`);
the accumulator that existed before the make is never restored.  Shown here on
the quiet knight move g1-f3: the make succeeds, the pushed record is the move
metadata, and the unmake errors out. -/
theorem nnue_make_unmake_broken :
    ∃ s2, make_move W1zero B1zero nnApi nn0 () ⟨6, 21, none⟩ = some s2 ∧
      s2.stack = [⟨PieceType.knight, 6, 21, true, 4⟩] ∧
      unmake s2 = none := by
  refine ⟨⟨List.replicate H1 0, [⟨PieceType.knight, 6, 21, true, 4⟩]⟩, ?_, rfl, ?_⟩
  · decide
  · decide

/-- C10: for any move reported as a capture whose destination square holds no
piece — exactly the en-passant case, where the captured pawn stands beside the
destination — `make_move` fails (`OFFSET[None]` raises a `KeyError` in the
source) instead of adjusting the accumulator. -/
theorem make_move_en_passant_fails (api : BoardAPI β) (W1 : Nat → List Int)
    (B1 : List Int) (s : NNUEState) (b : β) (mv : Move)
    (hc : api.is_capture b mv = true)
    (hn : api.piece_type_at b mv.to_sq = none) :
    make_move W1 B1 api s b mv = none := by
  simp only [make_move]
  cases hk : api.king b (api.turn b) with
  | none => rfl
  | some kb =>
    cases hp : api.piece_type_at b mv.from_sq with
    | none => rfl
    | some piece => simp only [hc, if_true, hn]

/-- Witness for C10 on the concrete en-passant scenario e5xd6. -/
theorem make_move_en_passant_fails_witness :
    (epApi.is_capture () ⟨36, 43, none⟩ = true ∧
        epApi.piece_type_at () 43 = none) ∧
      make_move W1zero B1zero epApi nn0 () ⟨36, 43, none⟩ = none :=
  ⟨⟨rfl, by decide⟩,
   make_move_en_passant_fails epApi W1zero B1zero nn0 () ⟨36, 43, none⟩ rfl
     (by decide)⟩

end Katfish
